import Mathlib

/-!
Shallow embedding of `src/sudoku/sudoku.py`, a PuLP model of a magic-square
sudoku: 729 binary cell variables plus one integer magic-sum variable, and
the constraint set the script adds to the problem (cell uniqueness, row,
column and box cardinality, major-diagonal cardinality, magic-square
equal-sum, knight's-move exclusion, and the four given cells).  The
constraint lists below mirror the generation loops of the source in order;
`satisfies` gives the meaning of a constraint under an integer assignment.
-/

namespace MagicSudoku

/-- Relations available on a PuLP constraint: `==`, `<=`, `>=`. -/
inductive Rel
  | eq
  | le
  | ge
deriving DecidableEq

/-- Variables of the LP model in `sudoku.py`: the cell variables built by
`LpVariable.dicts("choice", (VALS, ROWS, COLS), cat="Binary")`, identified by
their three dictionary keys in access order, and the single
`LpVariable("magic_square_sum", cat="Integer")`. -/
inductive LpVar
  | choice (r c v : Int)
  | magicSquareSum
deriving DecidableEq

/-- Variable categories of PuLP, as passed via `cat=`. -/
inductive LpCat
  | Binary
  | Integer
  | Continuous
deriving DecidableEq

/-- Category each variable of the model is declared with: the cell variables
use `cat="Binary"`, the magic-sum variable `cat="Integer"`. -/
def varCat : LpVar → LpCat
  | LpVar.choice _ _ _ => LpCat.Binary
  | LpVar.magicSquareSum => LpCat.Integer

/-- Declared bounds of each variable: `cat="Binary"` bounds a variable to
`[0, 1]`; `magic_square_sum` is declared with no bounds at all. -/
def varBounds : LpVar → Option Int × Option Int
  | LpVar.choice _ _ _ => (some 0, some 1)
  | LpVar.magicSquareSum => (none, none)

/-- A linear constraint: a list of `(variable, coefficient)` terms, a
relation, and an integer right-hand side. -/
structure Constraint where
  terms : List (LpVar × Int)
  rel : Rel
  rhs : Int
deriving DecidableEq

/-- The source sets `VALS = ROWS = COLS = DIAGONAL = range(1, 10)`. -/
def VALS : List Int := [1, 2, 3, 4, 5, 6, 7, 8, 9]

def ROWS : List Int := VALS

def COLS : List Int := VALS

def DIAGONAL : List Int := VALS

/-- Python's `range(3)`, used for the box and magic-square indices. -/
def RANGE3 : List Int := [0, 1, 2]

/-- Cells of the box with block indices `i`, `j`:
`[(3*i+k+1, 3*j+l+1) for k in range(3) for l in range(3)]`. -/
def boxCells (i j : Int) : List (Int × Int) :=
  RANGE3.flatMap fun k => RANGE3.map fun l => (3 * i + k + 1, 3 * j + l + 1)

/-- The `BOXES` list: row and column index of each square in each 3x3 box. -/
def BOXES : List (List (Int × Int)) :=
  RANGE3.flatMap fun i => RANGE3.map fun j => boxCells i j

/-- All cell variables created by `LpVariable.dicts("choice", (VALS, ROWS, COLS))`:
one variable per triple of dictionary keys. -/
def choiceVars : List LpVar :=
  VALS.flatMap fun i => ROWS.flatMap fun j => COLS.map fun k => LpVar.choice i j k

/-- Cell-uniqueness constraint for square `(r, c)`:
`lpSum([choices[r][c][v] for v in VALS]) == 1`. -/
def cellConstraint (r c : Int) : Constraint :=
  ⟨VALS.map fun v => (LpVar.choice r c v, 1), Rel.eq, 1⟩

/-- Cell-uniqueness constraints, one per square, in source loop order. -/
def cellConstraints : List Constraint :=
  ROWS.flatMap fun r => COLS.map fun c => cellConstraint r c

/-- Row constraint for value `v` and row `r`:
`lpSum([choices[r][c][v] for c in COLS]) == 1`. -/
def rowConstraint (v r : Int) : Constraint :=
  ⟨COLS.map fun c => (LpVar.choice r c v, 1), Rel.eq, 1⟩

/-- Column constraint for value `v` and column `c`:
`lpSum([choices[r][c][v] for r in ROWS]) == 1`. -/
def colConstraint (v c : Int) : Constraint :=
  ⟨ROWS.map fun r => (LpVar.choice r c v, 1), Rel.eq, 1⟩

/-- Box constraint for value `v` and box `b`:
`lpSum([choices[r][c][v] for (r, c) in b]) == 1`. -/
def boxConstraint (v : Int) (b : List (Int × Int)) : Constraint :=
  ⟨b.map fun rc => (LpVar.choice rc.1 rc.2 v, 1), Rel.eq, 1⟩

/-- The row, column and box constraints for each value, in source loop order
(for each value: all rows, then all columns, then all boxes). -/
def rowColBoxConstraints : List Constraint :=
  VALS.flatMap fun v =>
    (ROWS.map fun r => rowConstraint v r)
      ++ (COLS.map fun c => colConstraint v c)
      ++ (BOXES.map fun b => boxConstraint v b)

/-- Main-diagonal constraint for value `v`:
`lpSum([choices[d][d][v] for d in DIAGONAL]) == 1`. -/
def diagMainConstraint (v : Int) : Constraint :=
  ⟨DIAGONAL.map fun d => (LpVar.choice d d v, 1), Rel.eq, 1⟩

/-- Anti-diagonal constraint for value `v`:
`lpSum([choices[10 - d][d][v] for d in DIAGONAL]) == 1`. -/
def diagAntiConstraint (v : Int) : Constraint :=
  ⟨DIAGONAL.map fun d => (LpVar.choice (10 - d) d v, 1), Rel.eq, 1⟩

/-- Major-diagonal constraints, two per value, in source loop order. -/
def diagonalConstraints : List Constraint :=
  VALS.flatMap fun v => [diagMainConstraint v, diagAntiConstraint v]

/-- Magic-square row constraint for `r in range(3)`:
`lpSum([v * choices[4+r][4+c][v] for v in VALS for c in range(3)] + (magic_square * -1)) == 0`. -/
def magicRowConstraint (r : Int) : Constraint :=
  ⟨(VALS.flatMap fun v => RANGE3.map fun c => (LpVar.choice (4 + r) (4 + c) v, v))
    ++ [(LpVar.magicSquareSum, -1)], Rel.eq, 0⟩

/-- Magic-square column constraint for `c in range(3)`:
`lpSum([v * choices[4+r][4+c][v] for v in VALS for r in range(3)] + (magic_square * -1)) == 0`. -/
def magicColConstraint (c : Int) : Constraint :=
  ⟨(VALS.flatMap fun v => RANGE3.map fun r => (LpVar.choice (4 + r) (4 + c) v, v))
    ++ [(LpVar.magicSquareSum, -1)], Rel.eq, 0⟩

/-- Magic-square diagonal constraint over cells `(4+d, 4+d)`:
`lpSum([v * choices[4+d][4+d][v] for d in range(3) for v in VALS] + (magic_square * -1)) == 0`. -/
def magicDiag1Constraint : Constraint :=
  ⟨(RANGE3.flatMap fun d => VALS.map fun v => (LpVar.choice (4 + d) (4 + d) v, v))
    ++ [(LpVar.magicSquareSum, -1)], Rel.eq, 0⟩

/-- Magic-square diagonal constraint over cells `(6-d, 4+d)`:
`lpSum([v * choices[6-d][4+d][v] for d in range(3) for v in VALS] + (magic_square * -1)) == 0`. -/
def magicDiag2Constraint : Constraint :=
  ⟨(RANGE3.flatMap fun d => VALS.map fun v => (LpVar.choice (6 - d) (4 + d) v, v))
    ++ [(LpVar.magicSquareSum, -1)], Rel.eq, 0⟩

/-- The three magic-square row constraints, in source order. -/
def magicRowConstraints : List Constraint :=
  RANGE3.map fun r => magicRowConstraint r

/-- The three magic-square column constraints, in source order. -/
def magicColConstraints : List Constraint :=
  RANGE3.map fun c => magicColConstraint c

/-- The two magic-square diagonal constraints, in source order. -/
def magicDiagConstraints : List Constraint :=
  [magicDiag1Constraint, magicDiag2Constraint]

/-- The eight knight's-move offsets of `KNIGHTS_MOVES`. -/
def KNIGHTS_MOVES : List (Int × Int) :=
  [(-1, -2), (-2, -1), (-2, 1), (-1, 2), (1, 2), (2, 1), (2, -1), (1, -2)]

/-- Integer form of Python's `math.ceil(x / 3)`. -/
def ceilDiv3 (x : Int) : Int := Int.fdiv (x + 2) 3

/-- Helper of the source: the knight's-move target is inside the grid and
not in the same 3x3 square as the source cell. -/
def isUsefulKnightsMove (r c r_off c_off : Int) : Bool :=
  let r_tgt := r + r_off
  let c_tgt := c + c_off
  decide (1 ≤ r_tgt) && decide (r_tgt ≤ 9)
    && decide (1 ≤ c_tgt) && decide (c_tgt ≤ 9)
    && (decide (ceilDiv3 r ≠ ceilDiv3 r_tgt) || decide (ceilDiv3 c ≠ ceilDiv3 c_tgt))

/-- Knight's-move constraint for a cell, an offset and a value:
`lpSum([choices[r][c][v], choices[r + r_off][c + c_off][v]]) <= 1`. -/
def knightConstraint (r c : Int) (off : Int × Int) (v : Int) : Constraint :=
  ⟨[(LpVar.choice r c v, 1), (LpVar.choice (r + off.1) (c + off.2) v, 1)], Rel.le, 1⟩

/-- Knight's-move constraints, in source loop order: every cell, every
offset passing `isUsefulKnightsMove`, every value. -/
def knightsMoveConstraints : List Constraint :=
  ROWS.flatMap fun r => COLS.flatMap fun c => KNIGHTS_MOVES.flatMap fun off =>
    if isUsefulKnightsMove r c off.1 off.2 then
      VALS.map fun v => knightConstraint r c off v
    else []

/-- The counter `knights_move_constraint_count`, incremented once per
emitted knight's-move constraint. -/
def knights_move_constraint_count : Nat := knightsMoveConstraints.length

/-- Unordered knight's-move pairs: each pair of cells related by a useful
knight's move, listed once with the lexicographically smaller cell first. -/
def knightUnorderedPairs : List ((Int × Int) × (Int × Int)) :=
  ROWS.flatMap fun r => COLS.flatMap fun c =>
    (KNIGHTS_MOVES.filter fun off =>
        isUsefulKnightsMove r c off.1 off.2
          && decide (r < r + off.1 ∨ (r = r + off.1 ∧ c < c + off.2))).map
      fun off => ((r, c), (r + off.1, c + off.2))

/-- A given-cell constraint: `choices[r][c][v] == 1`. -/
def givenConstraint (r c v : Int) : Constraint :=
  ⟨[(LpVar.choice r c v, 1)], Rel.eq, 1⟩

/-- The starting numbers entered as constraints, in source order. -/
def givenConstraints : List Constraint :=
  [givenConstraint 4 1 3, givenConstraint 4 2 8, givenConstraint 4 3 4,
   givenConstraint 9 9 2]

/-- All constraints of the problem, in the order the source adds them. -/
def allConstraints : List Constraint :=
  cellConstraints ++ rowColBoxConstraints ++ diagonalConstraints
    ++ magicRowConstraints ++ magicColConstraints ++ magicDiagConstraints
    ++ knightsMoveConstraints ++ givenConstraints

/-- Value of a linear expression (a list of terms) under an assignment. -/
def evalTerms (a : LpVar → Int) (ts : List (LpVar × Int)) : Int :=
  (ts.map fun t => t.2 * a t.1).sum

/-- Meaning of each relation on integers. -/
def Rel.holds : Rel → Int → Int → Prop
  | Rel.eq, x, y => x = y
  | Rel.le, x, y => x ≤ y
  | Rel.ge, x, y => x ≥ y

instance Rel.holdsDecidable : (rel : Rel) → (x y : Int) → Decidable (Rel.holds rel x y)
  | Rel.eq, x, y => inferInstanceAs (Decidable (x = y))
  | Rel.le, x, y => inferInstanceAs (Decidable (x ≤ y))
  | Rel.ge, x, y => inferInstanceAs (Decidable (x ≥ y))

/-- An assignment satisfies a constraint when its expression stands in the
constraint's relation to the right-hand side. -/
def satisfies (a : LpVar → Int) (ct : Constraint) : Prop :=
  Rel.holds ct.rel (evalTerms a ct.terms) ct.rhs

instance satisfiesDecidable (a : LpVar → Int) (ct : Constraint) :
    Decidable (satisfies a ct) :=
  Rel.holdsDecidable ct.rel (evalTerms a ct.terms) ct.rhs

/-- An assignment is binary on the cell variables: each is 0 or 1. -/
def isBinaryAssignment (a : LpVar → Int) : Prop :=
  ∀ r c v : Int, a (LpVar.choice r c v) = 0 ∨ a (LpVar.choice r c v) = 1

/-- A feasible (solution) assignment: binary cell variables satisfying
every constraint of the problem. -/
def isFeasible (a : LpVar → Int) : Prop :=
  isBinaryAssignment a ∧ ∀ ct ∈ allConstraints, satisfies a ct

/-- Digit sum of an assignment along a list of cells: for each cell, the
value-weighted sum of its cell variables (the cell's digit when the
assignment is binary and one-hot on the cell). -/
def lineDigitSum (a : LpVar → Int) (cells : List (Int × Int)) : Int :=
  (cells.map fun rc => (VALS.map fun v => v * a (LpVar.choice rc.1 rc.2 v)).sum).sum

/-- Cells of row `4 + r` of the central 3x3 block. -/
def magicRowCells (r : Int) : List (Int × Int) :=
  RANGE3.map fun c => (4 + r, 4 + c)

/-- Cells of column `4 + c` of the central 3x3 block. -/
def magicColCells (c : Int) : List (Int × Int) :=
  RANGE3.map fun r => (4 + r, 4 + c)

/-- Cells `(4+d, 4+d)` of the first central-block diagonal. -/
def magicDiag1Cells : List (Int × Int) :=
  RANGE3.map fun d => (4 + d, 4 + d)

/-- Cells `(6-d, 4+d)` of the second central-block diagonal. -/
def magicDiag2Cells : List (Int × Int) :=
  RANGE3.map fun d => (6 - d, 4 + d)

/-- The eight digit sums of the magic square under an assignment: its three
rows, its three columns, and its two diagonals. -/
def magicLineSums (a : LpVar → Int) : List Int :=
  [lineDigitSum a (magicRowCells 0), lineDigitSum a (magicRowCells 1),
   lineDigitSum a (magicRowCells 2), lineDigitSum a (magicColCells 0),
   lineDigitSum a (magicColCells 1), lineDigitSum a (magicColCells 2),
   lineDigitSum a magicDiag1Cells, lineDigitSum a magicDiag2Cells]

/-- A variable reference whose dictionary keys all exist: every cell index
lies in `[1, 9]`, the key set of every level of the `choices` dictionary. -/
def varInRange : LpVar → Bool
  | LpVar.choice r c v =>
      decide (1 ≤ r) && decide (r ≤ 9) && decide (1 ≤ c) && decide (c ≤ 9)
        && decide (1 ≤ v) && decide (v ≤ 9)
  | LpVar.magicSquareSum => true

/-- The solved grid recorded in the closing comment of `sudoku.py`. -/
def solutionRows : List (List Int) :=
  [[8, 4, 3, 5, 6, 7, 2, 1, 9],
   [2, 7, 5, 9, 1, 3, 8, 4, 6],
   [6, 1, 9, 4, 2, 8, 3, 7, 5],
   [3, 8, 4, 6, 7, 2, 9, 5, 1],
   [7, 2, 6, 1, 5, 9, 4, 8, 3],
   [9, 5, 1, 8, 3, 4, 6, 2, 7],
   [5, 3, 7, 2, 8, 6, 1, 9, 4],
   [4, 6, 2, 7, 9, 1, 5, 3, 8],
   [1, 9, 8, 3, 4, 5, 7, 6, 2]]

/-- Digit of the recorded solution at row `r`, column `c` (1-indexed). -/
def solutionDigit (r c : Int) : Int :=
  (solutionRows.getD (r - 1).toNat []).getD (c - 1).toNat 0

/-- Assignment encoding the recorded solution; its magic sum is 15. -/
def solutionAssignment : LpVar → Int
  | LpVar.choice r c v => if solutionDigit r c = v then 1 else 0
  | LpVar.magicSquareSum => 15

/-- Bounded quantification over a `flatMap` splits into nested bounded
quantifications. -/
theorem forall_mem_flatMap {α β : Type} (p : β → Prop) (l : List α) (f : α → List β) :
    (∀ b ∈ l.flatMap f, p b) ↔ ∀ a ∈ l, ∀ b ∈ f a, p b := by
  constructor
  · intro h a ha b hb
    exact h b (List.mem_flatMap.mpr ⟨a, ha, hb⟩)
  · intro h b hb
    obtain ⟨a, ha, hb'⟩ := List.mem_flatMap.mp hb
    exact h a ha b hb'

/-- Evaluating a list of coefficient-1 terms sums the variable values. -/
theorem evalTerms_map_one (a : LpVar → Int) {α : Type} (g : α → LpVar) (l : List α) :
    evalTerms a (l.map fun x => (g x, 1)) = (l.map fun x => a (g x)).sum := by
  simp [evalTerms, List.map_map, Function.comp_def]

/-- The sum of a list of 0/1 integers is the number of its 1 entries. -/
theorem sum_eq_count_one (l : List Int) (h : ∀ x ∈ l, x = 0 ∨ x = 1) :
    l.sum = (l.count 1 : Int) := by
  induction l with
  | nil => simp
  | cons x xs ih =>
    have hx := h x (List.mem_cons_self x xs)
    have ihs := ih fun y hy => h y (List.mem_cons_of_mem x hy)
    rcases hx with h0 | h1
    · simp [List.count_cons, h0, ihs]
    · simp [List.count_cons, h1, ihs]
      omega

theorem mem_all_of_cell {ct : Constraint} (h : ct ∈ cellConstraints) :
    ct ∈ allConstraints := by
  simp [allConstraints, List.mem_append, h]

theorem mem_all_of_rowColBox {ct : Constraint} (h : ct ∈ rowColBoxConstraints) :
    ct ∈ allConstraints := by
  simp [allConstraints, List.mem_append, h]

theorem mem_all_of_diagonal {ct : Constraint} (h : ct ∈ diagonalConstraints) :
    ct ∈ allConstraints := by
  simp [allConstraints, List.mem_append, h]

theorem mem_all_of_magicRow {ct : Constraint} (h : ct ∈ magicRowConstraints) :
    ct ∈ allConstraints := by
  simp [allConstraints, List.mem_append, h]

theorem mem_all_of_magicCol {ct : Constraint} (h : ct ∈ magicColConstraints) :
    ct ∈ allConstraints := by
  simp [allConstraints, List.mem_append, h]

theorem mem_all_of_magicDiag {ct : Constraint} (h : ct ∈ magicDiagConstraints) :
    ct ∈ allConstraints := by
  simp [allConstraints, List.mem_append, h]

theorem mem_all_of_knight {ct : Constraint} (h : ct ∈ knightsMoveConstraints) :
    ct ∈ allConstraints := by
  simp [allConstraints, List.mem_append, h]

theorem mem_all_of_given {ct : Constraint} (h : ct ∈ givenConstraints) :
    ct ∈ allConstraints := by
  simp [allConstraints, List.mem_append, h]

/-- Membership in the knight's-move constraint list, characterized by the
generating loops. -/
theorem mem_knightsMoveConstraints_iff (ct : Constraint) :
    ct ∈ knightsMoveConstraints ↔
      ∃ r ∈ ROWS, ∃ c ∈ COLS, ∃ off ∈ KNIGHTS_MOVES, ∃ v ∈ VALS,
        isUsefulKnightsMove r c off.1 off.2 = true ∧ ct = knightConstraint r c off v := by
  unfold knightsMoveConstraints
  simp only [List.mem_flatMap]
  constructor
  · rintro ⟨r, hr, c, hc, off, hoff, hct⟩
    by_cases h : isUsefulKnightsMove r c off.1 off.2 = true
    · rw [if_pos h] at hct
      obtain ⟨v, hv, rfl⟩ := List.mem_map.mp hct
      exact ⟨r, hr, c, hc, off, hoff, v, hv, h, rfl⟩
    · rw [if_neg h] at hct
      exact absurd hct (List.not_mem_nil ct)
  · rintro ⟨r, hr, c, hc, off, hoff, v, hv, h, rfl⟩
    exact ⟨r, hr, c, hc, off, hoff, by rw [if_pos h]; exact List.mem_map_of_mem _ hv⟩

/-- Two equal knight's-move constraints come from the same cell, offset and
value. -/
theorem knightConstraint_inj {r c v r' c' v' : Int} {off off' : Int × Int}
    (h : knightConstraint r c off v = knightConstraint r' c' off' v') :
    r = r' ∧ c = c' ∧ off.1 = off'.1 ∧ off.2 = off'.2 ∧ v = v' := by
  simp only [knightConstraint, Constraint.mk.injEq, List.cons.injEq, Prod.mk.injEq,
    LpVar.choice.injEq, and_true] at h
  obtain ⟨⟨hr, hc, hv⟩, hrt, hct⟩ := h
  refine ⟨hr, hc, ?_, ?_, hv⟩ <;> omega

/-- The recorded solution is binary on the cell variables. -/
theorem solutionAssignment_binary : isBinaryAssignment solutionAssignment := by
  intro r c v
  by_cases h : solutionDigit r c = v
  · right; simp [solutionAssignment, h]
  · left; simp [solutionAssignment, h]

set_option maxRecDepth 4000 in
theorem solution_sat_knights :
    ∀ ct ∈ knightsMoveConstraints, satisfies solutionAssignment ct := by
  unfold knightsMoveConstraints
  rw [forall_mem_flatMap]
  intro r hr
  rw [forall_mem_flatMap]
  revert hr r
  decide

set_option maxRecDepth 4000 in
theorem solution_sat_rest :
    ∀ ct ∈ cellConstraints ++ rowColBoxConstraints ++ diagonalConstraints
      ++ magicRowConstraints ++ magicColConstraints ++ magicDiagConstraints
      ++ givenConstraints,
    satisfies solutionAssignment ct := by decide

/-- The recorded solution satisfies every constraint the builder emits. -/
theorem solution_sat_all : ∀ ct ∈ allConstraints, satisfies solutionAssignment ct := by
  intro ct hct
  have h : ct ∈ knightsMoveConstraints ∨
      ct ∈ cellConstraints ++ rowColBoxConstraints ++ diagonalConstraints
        ++ magicRowConstraints ++ magicColConstraints ++ magicDiagConstraints
        ++ givenConstraints := by
    simp only [allConstraints, List.mem_append] at hct
    simp only [List.mem_append]
    tauto
  rcases h with h | h
  · exact solution_sat_knights ct h
  · exact solution_sat_rest ct h

/-- The recorded solution is a feasible assignment of the model. -/
theorem solution_feasible : isFeasible solutionAssignment :=
  ⟨solutionAssignment_binary, solution_sat_all⟩

/-- Membership in the index list `ROWS` is the bound `1 ≤ x ≤ 9`. -/
theorem mem_ROWS_iff (x : Int) : x ∈ ROWS ↔ 1 ≤ x ∧ x ≤ 9 := by
  simp only [ROWS, VALS, List.mem_cons, List.not_mem_nil, or_false]
  omega

/-- Membership in `RANGE3` is the bound `0 ≤ x ≤ 2`. -/
theorem mem_RANGE3_iff (x : Int) : x ∈ RANGE3 ↔ 0 ≤ x ∧ x ≤ 2 := by
  simp only [RANGE3, List.mem_cons, List.not_mem_nil, or_false]
  omega

/-- The integer ceiling division by 3 as a Euclidean division. -/
theorem ceilDiv3_eq_ediv (x : Int) : ceilDiv3 x = (x + 2) / 3 :=
  Int.fdiv_eq_ediv _ (by norm_num)

/-- Membership in a box is a pair of interval bounds. -/
theorem mem_boxCells_iff (i j x y : Int) :
    (x, y) ∈ boxCells i j ↔
      3 * i + 1 ≤ x ∧ x ≤ 3 * i + 3 ∧ 3 * j + 1 ≤ y ∧ y ≤ 3 * j + 3 := by
  simp only [boxCells, RANGE3, List.flatMap_cons, List.flatMap_nil, List.map_cons,
    List.map_nil, List.cons_append, List.nil_append, List.append_nil, List.mem_cons,
    List.not_mem_nil, or_false, Prod.mk.injEq]
  omega

/-- The members of `BOXES` are exactly the boxes of block indices in `[0, 2]`. -/
theorem mem_BOXES_iff (b : List (Int × Int)) :
    b ∈ BOXES ↔ ∃ i ∈ RANGE3, ∃ j ∈ RANGE3, b = boxCells i j := by
  simp only [BOXES, List.mem_flatMap, List.mem_map]
  constructor
  · rintro ⟨i, hi, j, hj, rfl⟩
    exact ⟨i, hi, j, hj, rfl⟩
  · rintro ⟨i, hi, j, hj, rfl⟩
    exact ⟨i, hi, j, hj, rfl⟩

/-- For in-grid cells, equality of the two ceiling-division pairs used by
`isUsefulKnightsMove` states exactly that the cells share a 3x3 box. -/
theorem box_char (r c r2 c2 : Int) (hr1 : 1 ≤ r) (hr9 : r ≤ 9) (hc1 : 1 ≤ c)
    (hc9 : c ≤ 9) (h2r1 : 1 ≤ r2) (h2r9 : r2 ≤ 9) (h2c1 : 1 ≤ c2) (h2c9 : c2 ≤ 9) :
    (ceilDiv3 r = ceilDiv3 r2 ∧ ceilDiv3 c = ceilDiv3 c2) ↔
      ∃ b ∈ BOXES, (r, c) ∈ b ∧ (r2, c2) ∈ b := by
  constructor
  · rintro ⟨h1, h2⟩
    rw [ceilDiv3_eq_ediv, ceilDiv3_eq_ediv] at h1 h2
    refine ⟨boxCells ((r - 1) / 3) ((c - 1) / 3), ?_, ?_, ?_⟩
    · exact (mem_BOXES_iff _).mpr ⟨(r - 1) / 3, by rw [mem_RANGE3_iff]; omega,
        (c - 1) / 3, by rw [mem_RANGE3_iff]; omega, rfl⟩
    · rw [mem_boxCells_iff]
      omega
    · rw [mem_boxCells_iff]
      omega
  · rintro ⟨b, hb, hm1, hm2⟩
    obtain ⟨i, hi, j, hj, rfl⟩ := (mem_BOXES_iff _).mp hb
    rw [mem_RANGE3_iff] at hi hj
    rw [mem_boxCells_iff] at hm1 hm2
    rw [ceilDiv3_eq_ediv, ceilDiv3_eq_ediv, ceilDiv3_eq_ediv, ceilDiv3_eq_ediv]
    constructor <;> omega

/-- A useful knight's move lands inside the grid. -/
theorem isUseful_bounds {r c r_off c_off : Int}
    (h : isUsefulKnightsMove r c r_off c_off = true) :
    1 ≤ r + r_off ∧ r + r_off ≤ 9 ∧ 1 ≤ c + c_off ∧ c + c_off ≤ 9 := by
  simp only [isUsefulKnightsMove, Bool.and_eq_true, Bool.or_eq_true,
    decide_eq_true_eq] at h
  exact ⟨h.1.1.1.1, h.1.1.1.2, h.1.1.2, h.1.2⟩

/-- A list of 0/1 integers summing to 0 is all zeros. -/
theorem binary_sum_zero (m : List Int) (hb : ∀ x ∈ m, x = 0 ∨ x = 1)
    (hs : m.sum = 0) : ∀ x ∈ m, x = 0 := by
  have hcount := sum_eq_count_one m hb
  rw [hs] at hcount
  intro x hx
  rcases hb x hx with h | h
  · exact h
  · exfalso
    rw [h] at hx
    have hpos := List.count_pos_iff.mpr hx
    omega

/-- Over a duplicate-free index list, a 0/1-valued function summing to 1
takes the value 1 at a unique index. -/
theorem binary_one_unique {α : Type} (g : α → Int) :
    ∀ l : List α, l.Nodup → (∀ x ∈ l, g x = 0 ∨ g x = 1) →
      (l.map g).sum = 1 → ∀ x ∈ l, ∀ y ∈ l, g x = 1 → g y = 1 → x = y := by
  intro l
  induction l with
  | nil =>
    intro _ _ _ x hx
    exact absurd hx (List.not_mem_nil x)
  | cons a t ih =>
    intro hnd hb hs x hx y hy hgx hgy
    obtain ⟨hat, hndt⟩ := List.nodup_cons.mp hnd
    simp only [List.map_cons, List.sum_cons] at hs
    have hbt : ∀ z ∈ t, g z = 0 ∨ g z = 1 :=
      fun z hz => hb z (List.mem_cons_of_mem a hz)
    have hbmap : ∀ u ∈ t.map g, u = 0 ∨ u = 1 := by
      intro u hu
      obtain ⟨z, hz, rfl⟩ := List.mem_map.mp hu
      exact hbt z hz
    rcases List.mem_cons.mp hx with rfl | hxt
    · rcases List.mem_cons.mp hy with rfl | hyt
      · rfl
      · exfalso
        have hz : (t.map g).sum = 0 := by omega
        have := binary_sum_zero _ hbmap hz (g y) (List.mem_map_of_mem g hyt)
        omega
    · rcases List.mem_cons.mp hy with rfl | hyt
      · exfalso
        have hz : (t.map g).sum = 0 := by omega
        have := binary_sum_zero _ hbmap hz (g x) (List.mem_map_of_mem g hxt)
        omega
      · rcases hb a (List.mem_cons_self a t) with h0 | h1
        · exact ih hndt hbt (by omega) x hxt y hyt hgx hgy
        · exfalso
          have hz : (t.map g).sum = 0 := by omega
          have := binary_sum_zero _ hbmap hz (g x) (List.mem_map_of_mem g hxt)
          omega

/-- A binary assignment satisfying the given-cell constraint and the
cell-uniqueness constraint of a cell holds exactly the given digit there. -/
theorem given_forces_digit (a : LpVar → Int) (hbin : isBinaryAssignment a)
    (hsat : ∀ ct ∈ allConstraints, satisfies a ct)
    (r c v0 : Int) (hv0 : v0 ∈ VALS)
    (hgmem : givenConstraint r c v0 ∈ allConstraints)
    (hcmem : cellConstraint r c ∈ allConstraints) :
    a (LpVar.choice r c v0) = 1 ∧ ∀ v ∈ VALS, a (LpVar.choice r c v) = 1 → v = v0 := by
  have hg : a (LpVar.choice r c v0) = 1 := by
    have h := hsat _ hgmem
    simpa [satisfies, givenConstraint, Rel.holds, evalTerms] using h
  have hc := hsat _ hcmem
  simp only [satisfies, cellConstraint, Rel.holds] at hc
  rw [evalTerms_map_one a (fun v => LpVar.choice r c v) VALS] at hc
  refine ⟨hg, ?_⟩
  intro v hv hv1
  exact binary_one_unique (fun v => a (LpVar.choice r c v)) VALS (by decide)
    (fun z _ => hbin r c z) hc v hv v0 hv0 hv1 hg

/-- C7: for every (row, column) pair in [1,9]² the builder emits exactly one
cardinality constraint — all coefficients 1, relation `=`, rhs 1 — over that
cell's 9 value-variables (81 such constraints, all part of the emitted
constraint set, and nothing else in the cell-uniqueness group), and any
binary assignment satisfying a cell's constraint makes exactly one of its
value-variables true. -/
theorem claim_C7_cell_uniqueness :
    cellConstraints.length = 81
    ∧ (∀ r ∈ ROWS, ∀ c ∈ COLS, cellConstraints.count (cellConstraint r c) = 1)
    ∧ (∀ ct ∈ cellConstraints, ∃ r ∈ ROWS, ∃ c ∈ COLS, ct = cellConstraint r c)
    ∧ (∀ r c : Int, (cellConstraint r c).rel = Rel.eq ∧ (cellConstraint r c).rhs = 1
        ∧ ∀ t ∈ (cellConstraint r c).terms, t.2 = 1)
    ∧ (∀ ct ∈ cellConstraints, ct ∈ allConstraints)
    ∧ ∀ a : LpVar → Int, isBinaryAssignment a → ∀ r c : Int,
        satisfies a (cellConstraint r c) →
        (VALS.map fun v => a (LpVar.choice r c v)).count 1 = 1 := by
  refine ⟨by decide, by decide, by decide, ?_, fun ct h => mem_all_of_cell h, ?_⟩
  · intro r c
    refine ⟨rfl, rfl, ?_⟩
    intro t ht
    simp only [cellConstraint, VALS] at ht
    fin_cases ht <;> rfl
  · intro a hbin r c hsat
    simp only [satisfies, cellConstraint, Rel.holds] at hsat
    rw [evalTerms_map_one a (fun v => LpVar.choice r c v) VALS] at hsat
    have hb : ∀ x ∈ VALS.map fun v => a (LpVar.choice r c v), x = 0 ∨ x = 1 := by
      intro x hx
      obtain ⟨v, hv, rfl⟩ := List.mem_map.mp hx
      exact hbin r c v
    have hcount := sum_eq_count_one _ hb
    omega

/-- C7 witness: the constraint of cell (1, 1) under the recorded solution
forces exactly one of the cell's value-variables true. -/
theorem claim_C7_witness :
    (VALS.map fun v => solutionAssignment (LpVar.choice 1 1 v)).count 1 = 1 :=
  claim_C7_cell_uniqueness.2.2.2.2.2 solutionAssignment solutionAssignment_binary
    1 1 (by decide)

set_option maxRecDepth 8000 in
/-- C8: the variable model has exactly 729 binary cell variables, one per
dictionary-key triple with every component in [1, 9] (729 slots filled by the
729 distinct in-range triples, so each triple appears exactly once). -/
theorem claim_C8_variable_model :
    choiceVars.length = 729
    ∧ (∀ r c v : Int, LpVar.choice r c v ∈ choiceVars ↔
        (1 ≤ r ∧ r ≤ 9) ∧ (1 ≤ c ∧ c ≤ 9) ∧ (1 ≤ v ∧ v ≤ 9))
    ∧ ∀ x ∈ choiceVars, varCat x = LpCat.Binary := by
  refine ⟨by decide, ?_, by decide⟩
  intro r c v
  simp only [choiceVars, List.mem_flatMap, List.mem_map, VALS, ROWS, COLS,
    LpVar.choice.injEq]
  constructor
  · rintro ⟨i, hi, j, hj, k, hk, rfl, rfl, rfl⟩
    simp only [List.mem_cons, List.not_mem_nil, or_false] at hi hj hk
    omega
  · rintro ⟨⟨hr1, hr9⟩, ⟨hc1, hc9⟩, ⟨hv1, hv9⟩⟩
    refine ⟨r, ?_, c, ?_, v, ?_, rfl, rfl, rfl⟩ <;>
      · simp only [List.mem_cons, List.not_mem_nil, or_false]
        omega

/-- C8 witness: the variable for row 1, column 1, value 1 is among the 729
cell variables. -/
theorem claim_C8_witness : LpVar.choice 1 1 1 ∈ choiceVars :=
  (claim_C8_variable_model.2.1 1 1 1).mpr (by norm_num)

set_option maxRecDepth 8000 in
/-- C5: for each value and each main diagonal the builder emits exactly one
cardinality constraint — the cells `(d, d)` for the main diagonal and
`(10-d, d)` for the anti-diagonal — all 18 part of the emitted set and
nothing else in the diagonal group, and any binary assignment satisfying a
diagonal's constraint for a value places that value exactly once on the
diagonal. -/
theorem claim_C5_diagonal_constraints :
    diagonalConstraints.length = 18
    ∧ (∀ v ∈ VALS, diagonalConstraints.count (diagMainConstraint v) = 1
        ∧ diagonalConstraints.count (diagAntiConstraint v) = 1
        ∧ diagMainConstraint v ≠ diagAntiConstraint v)
    ∧ (∀ ct ∈ diagonalConstraints, ∃ v ∈ VALS,
        ct = diagMainConstraint v ∨ ct = diagAntiConstraint v)
    ∧ (∀ ct ∈ diagonalConstraints, ct ∈ allConstraints)
    ∧ (∀ a : LpVar → Int, isBinaryAssignment a →
        (∀ v : Int, satisfies a (diagMainConstraint v) →
          (DIAGONAL.map fun d => a (LpVar.choice d d v)).count 1 = 1)
        ∧ ∀ v : Int, satisfies a (diagAntiConstraint v) →
          (DIAGONAL.map fun d => a (LpVar.choice (10 - d) d v)).count 1 = 1) := by
  refine ⟨by decide, by decide, by decide, fun ct h => mem_all_of_diagonal h, ?_⟩
  intro a hbin
  constructor
  · intro v hsat
    simp only [satisfies, diagMainConstraint, Rel.holds] at hsat
    rw [evalTerms_map_one a (fun d => LpVar.choice d d v) DIAGONAL] at hsat
    have hb : ∀ x ∈ DIAGONAL.map fun d => a (LpVar.choice d d v), x = 0 ∨ x = 1 := by
      intro x hx
      obtain ⟨d, hd, rfl⟩ := List.mem_map.mp hx
      exact hbin d d v
    have hcount := sum_eq_count_one _ hb
    omega
  · intro v hsat
    simp only [satisfies, diagAntiConstraint, Rel.holds] at hsat
    rw [evalTerms_map_one a (fun d => LpVar.choice (10 - d) d v) DIAGONAL] at hsat
    have hb : ∀ x ∈ DIAGONAL.map fun d => a (LpVar.choice (10 - d) d v),
        x = 0 ∨ x = 1 := by
      intro x hx
      obtain ⟨d, hd, rfl⟩ := List.mem_map.mp hx
      exact hbin (10 - d) d v
    have hcount := sum_eq_count_one _ hb
    omega

/-- C5 witness: under the recorded solution, value 5 appears exactly once on
the main diagonal. -/
theorem claim_C5_witness :
    (DIAGONAL.map fun d => solutionAssignment (LpVar.choice d d 5)).count 1 = 1 :=
  claim_C5_diagonal_constraints.2.2.2.2 solutionAssignment solutionAssignment_binary
    |>.1 5 (by decide)

set_option maxRecDepth 8000 in
/-- C6: for every value the builder emits a cardinality constraint for each
row, each column, and each of the 9 3x3 boxes (pairwise disjoint 9-cell
lists); the group has exactly 243 = 9 values x 27 lines members and nothing
else, all part of the emitted set; and any binary assignment satisfying a
row, column or box constraint for a value places that value exactly once in
that row, column or box. -/
theorem claim_C6_row_col_box_constraints :
    rowColBoxConstraints.length = 243
    ∧ BOXES.length = 9
    ∧ (∀ b ∈ BOXES, b.length = 9)
    ∧ (∀ b1 ∈ BOXES, ∀ b2 ∈ BOXES, b1 = b2 ∨ ∀ p ∈ b1, p ∉ b2)
    ∧ (∀ v ∈ VALS, ∀ r ∈ ROWS, rowConstraint v r ∈ rowColBoxConstraints)
    ∧ (∀ v ∈ VALS, ∀ c ∈ COLS, colConstraint v c ∈ rowColBoxConstraints)
    ∧ (∀ v ∈ VALS, ∀ b ∈ BOXES, boxConstraint v b ∈ rowColBoxConstraints)
    ∧ (∀ ct ∈ rowColBoxConstraints, ∃ v ∈ VALS,
        (∃ r ∈ ROWS, ct = rowConstraint v r) ∨ (∃ c ∈ COLS, ct = colConstraint v c)
          ∨ ∃ b ∈ BOXES, ct = boxConstraint v b)
    ∧ (∀ ct ∈ rowColBoxConstraints, ct ∈ allConstraints)
    ∧ (∀ a : LpVar → Int, isBinaryAssignment a →
        (∀ v r : Int, satisfies a (rowConstraint v r) →
          (COLS.map fun c => a (LpVar.choice r c v)).count 1 = 1)
        ∧ (∀ v c : Int, satisfies a (colConstraint v c) →
          (ROWS.map fun r => a (LpVar.choice r c v)).count 1 = 1)
        ∧ ∀ v : Int, ∀ b : List (Int × Int), satisfies a (boxConstraint v b) →
          (b.map fun rc => a (LpVar.choice rc.1 rc.2 v)).count 1 = 1) := by
  refine ⟨by decide, by decide, by decide, by decide, ?_, ?_, ?_, ?_,
    fun ct h => mem_all_of_rowColBox h, ?_⟩
  · intro v hv r hr
    exact List.mem_flatMap.mpr ⟨v, hv,
      List.mem_append_left _ (List.mem_append_left _ (List.mem_map_of_mem _ hr))⟩
  · intro v hv c hc
    exact List.mem_flatMap.mpr ⟨v, hv,
      List.mem_append_left _ (List.mem_append_right _ (List.mem_map_of_mem _ hc))⟩
  · intro v hv b hb
    exact List.mem_flatMap.mpr ⟨v, hv,
      List.mem_append_right _ (List.mem_map_of_mem _ hb)⟩
  · intro ct hct
    obtain ⟨v, hv, hmem⟩ := List.mem_flatMap.mp hct
    rcases List.mem_append.mp hmem with h2 | h
    · rcases List.mem_append.mp h2 with h | h
      · obtain ⟨r, hr, rfl⟩ := List.mem_map.mp h
        exact ⟨v, hv, Or.inl ⟨r, hr, rfl⟩⟩
      · obtain ⟨c, hc, rfl⟩ := List.mem_map.mp h
        exact ⟨v, hv, Or.inr (Or.inl ⟨c, hc, rfl⟩)⟩
    · obtain ⟨b, hb, rfl⟩ := List.mem_map.mp h
      exact ⟨v, hv, Or.inr (Or.inr ⟨b, hb, rfl⟩)⟩
  intro a hbin
  refine ⟨?_, ?_, ?_⟩
  · intro v r hsat
    simp only [satisfies, rowConstraint, Rel.holds] at hsat
    rw [evalTerms_map_one a (fun c => LpVar.choice r c v) COLS] at hsat
    have hb : ∀ x ∈ COLS.map fun c => a (LpVar.choice r c v), x = 0 ∨ x = 1 := by
      intro x hx
      obtain ⟨cc, hcc, rfl⟩ := List.mem_map.mp hx
      exact hbin r cc v
    have hcount := sum_eq_count_one _ hb
    omega
  · intro v c hsat
    simp only [satisfies, colConstraint, Rel.holds] at hsat
    rw [evalTerms_map_one a (fun r => LpVar.choice r c v) ROWS] at hsat
    have hb : ∀ x ∈ ROWS.map fun r => a (LpVar.choice r c v), x = 0 ∨ x = 1 := by
      intro x hx
      obtain ⟨rr, hrr, rfl⟩ := List.mem_map.mp hx
      exact hbin rr c v
    have hcount := sum_eq_count_one _ hb
    omega
  · intro v b hsat
    simp only [satisfies, boxConstraint, Rel.holds] at hsat
    rw [evalTerms_map_one a (fun rc : Int × Int => LpVar.choice rc.1 rc.2 v) b] at hsat
    have hb : ∀ x ∈ b.map fun rc : Int × Int => a (LpVar.choice rc.1 rc.2 v),
        x = 0 ∨ x = 1 := by
      intro x hx
      obtain ⟨rc, hrc, rfl⟩ := List.mem_map.mp hx
      exact hbin rc.1 rc.2 v
    have hcount := sum_eq_count_one _ hb
    omega

/-- C6 witness: under the recorded solution, value 5 appears exactly once in
row 5. -/
theorem claim_C6_witness :
    (COLS.map fun c => solutionAssignment (LpVar.choice 5 c 5)).count 1 = 1 :=
  (claim_C6_row_col_box_constraints.2.2.2.2.2.2.2.2.2 solutionAssignment
    solutionAssignment_binary).1 5 5 (by decide)

/-- C4: the builder emits exactly the four given-cell constraints forcing
`choices[4][1][3]`, `choices[4][2][8]`, `choices[4][3][4]` and
`choices[9][9][2]` to 1; a given-cell constraint is equivalent to its
variable being 1; and every feasible assignment holds exactly digits 3, 8,
4, 2 at cells (4,1), (4,2), (4,3), (9,9). -/
theorem claim_C4_given_cells :
    givenConstraints = [givenConstraint 4 1 3, givenConstraint 4 2 8,
      givenConstraint 4 3 4, givenConstraint 9 9 2]
    ∧ (∀ ct ∈ givenConstraints, ct ∈ allConstraints)
    ∧ (∀ (a : LpVar → Int) (r c v : Int),
        satisfies a (givenConstraint r c v) ↔ a (LpVar.choice r c v) = 1)
    ∧ ∀ a : LpVar → Int, isFeasible a →
        (a (LpVar.choice 4 1 3) = 1 ∧ ∀ v ∈ VALS, a (LpVar.choice 4 1 v) = 1 → v = 3)
        ∧ (a (LpVar.choice 4 2 8) = 1 ∧ ∀ v ∈ VALS, a (LpVar.choice 4 2 v) = 1 → v = 8)
        ∧ (a (LpVar.choice 4 3 4) = 1 ∧ ∀ v ∈ VALS, a (LpVar.choice 4 3 v) = 1 → v = 4)
        ∧ (a (LpVar.choice 9 9 2) = 1 ∧ ∀ v ∈ VALS, a (LpVar.choice 9 9 v) = 1 → v = 2) := by
  refine ⟨rfl, fun ct h => mem_all_of_given h, ?_, ?_⟩
  · intro a r c v
    simp [satisfies, givenConstraint, Rel.holds, evalTerms]
  · rintro a ⟨hbin, hsat⟩
    exact ⟨given_forces_digit a hbin hsat 4 1 3 (by decide)
        (mem_all_of_given (by decide)) (mem_all_of_cell (by decide)),
      given_forces_digit a hbin hsat 4 2 8 (by decide)
        (mem_all_of_given (by decide)) (mem_all_of_cell (by decide)),
      given_forces_digit a hbin hsat 4 3 4 (by decide)
        (mem_all_of_given (by decide)) (mem_all_of_cell (by decide)),
      given_forces_digit a hbin hsat 9 9 2 (by decide)
        (mem_all_of_given (by decide)) (mem_all_of_cell (by decide))⟩

/-- C4 witness: the recorded solution holds the four given digits. -/
theorem claim_C4_witness :
    solutionAssignment (LpVar.choice 4 1 3) = 1
    ∧ solutionAssignment (LpVar.choice 4 2 8) = 1
    ∧ solutionAssignment (LpVar.choice 4 3 4) = 1
    ∧ solutionAssignment (LpVar.choice 9 9 2) = 1 := by
  have h := claim_C4_given_cells.2.2.2 solutionAssignment solution_feasible
  exact ⟨h.1.1, h.2.1.1, h.2.2.1.1, h.2.2.2.1⟩

/-- C1 counterexample: the source emits exactly one weighted-sum constraint
per central-block diagonal — 2 diagonal constraints and 8 magic-square
constraints in total — not 4 pairs (nor 4) of opposing-direction diagonal
constraints. -/
theorem claim_C1_counterexample :
    magicDiagConstraints.length = 2
    ∧ magicDiagConstraints.length ≠ 8
    ∧ magicDiagConstraints.length ≠ 4
    ∧ (magicRowConstraints ++ magicColConstraints ++ magicDiagConstraints).length = 8 := by
  decide

/-- C1 (amended): for the central 3x3 block the builder emits one
weighted-sum equality constraint per row (3), per column (3), and one per
diagonal (2, each diagonal computed independently), each term weighted by
the candidate digit value and each constraint equivalent to the line's digit
sum being equal to the shared magic-sum variable. -/
theorem claim_C1_magic_square_constraints :
    magicRowConstraints.length = 3
    ∧ magicColConstraints.length = 3
    ∧ magicDiagConstraints.length = 2
    ∧ magicRowConstraints
        = [magicRowConstraint 0, magicRowConstraint 1, magicRowConstraint 2]
    ∧ magicColConstraints
        = [magicColConstraint 0, magicColConstraint 1, magicColConstraint 2]
    ∧ magicDiagConstraints = [magicDiag1Constraint, magicDiag2Constraint]
    ∧ (∀ ct ∈ magicRowConstraints ++ magicColConstraints ++ magicDiagConstraints,
        ct ∈ allConstraints)
    ∧ ∀ a : LpVar → Int,
        (∀ r ∈ RANGE3, satisfies a (magicRowConstraint r) ↔
          lineDigitSum a (magicRowCells r) = a LpVar.magicSquareSum)
        ∧ (∀ c ∈ RANGE3, satisfies a (magicColConstraint c) ↔
          lineDigitSum a (magicColCells c) = a LpVar.magicSquareSum)
        ∧ (satisfies a magicDiag1Constraint ↔
          lineDigitSum a magicDiag1Cells = a LpVar.magicSquareSum)
        ∧ (satisfies a magicDiag2Constraint ↔
          lineDigitSum a magicDiag2Cells = a LpVar.magicSquareSum) := by
  refine ⟨rfl, rfl, rfl, rfl, rfl, rfl, ?_, ?_⟩
  · intro ct hct
    rcases List.mem_append.mp hct with hct2 | h
    · rcases List.mem_append.mp hct2 with h | h
      · exact mem_all_of_magicRow h
      · exact mem_all_of_magicCol h
    · exact mem_all_of_magicDiag h
  · intro a
    refine ⟨?_, ?_, ?_, ?_⟩
    · intro r hr
      simp only [RANGE3, List.mem_cons, List.not_mem_nil, or_false] at hr
      rcases hr with rfl | rfl | rfl <;>
        · simp only [satisfies, Rel.holds, magicRowConstraint, evalTerms, lineDigitSum,
            magicRowCells, RANGE3, VALS, List.flatMap_cons, List.flatMap_nil, List.map_cons,
            List.map_nil, List.map_append, List.sum_cons, List.sum_nil, List.sum_append,
            List.cons_append, List.nil_append, List.append_nil]
          omega
    · intro c hc
      simp only [RANGE3, List.mem_cons, List.not_mem_nil, or_false] at hc
      rcases hc with rfl | rfl | rfl <;>
        · simp only [satisfies, Rel.holds, magicColConstraint, evalTerms, lineDigitSum,
            magicColCells, RANGE3, VALS, List.flatMap_cons, List.flatMap_nil, List.map_cons,
            List.map_nil, List.map_append, List.sum_cons, List.sum_nil, List.sum_append,
            List.cons_append, List.nil_append, List.append_nil]
          omega
    · simp only [satisfies, Rel.holds, magicDiag1Constraint, evalTerms, lineDigitSum,
        magicDiag1Cells, RANGE3, VALS, List.flatMap_cons, List.flatMap_nil, List.map_cons,
            List.map_nil, List.map_append, List.sum_cons, List.sum_nil, List.sum_append,
            List.cons_append, List.nil_append, List.append_nil]
      omega
    · simp only [satisfies, Rel.holds, magicDiag2Constraint, evalTerms, lineDigitSum,
        magicDiag2Cells, RANGE3, VALS, List.flatMap_cons, List.flatMap_nil, List.map_cons,
            List.map_nil, List.map_append, List.sum_cons, List.sum_nil, List.sum_append,
            List.cons_append, List.nil_append, List.append_nil]
      omega

/-- C1 witness: under the recorded solution, the first central-block row
constraint holds, so that row's digit sum equals the recorded magic sum. -/
theorem claim_C1_witness :
    lineDigitSum solutionAssignment (magicRowCells 0)
      = solutionAssignment LpVar.magicSquareSum :=
  ((claim_C1_magic_square_constraints.2.2.2.2.2.2.2 solutionAssignment).1 0
    (by decide)).mp (by decide)

/-- C3: the magic sum is one shared integer variable, declared without
bounds, appearing with coefficient -1 in each of the eight magic-square
constraints; every feasible assignment gives each of the three rows, three
columns and two diagonals of the central block a digit sum equal to that
variable, so all eight sums are mutually equal. -/
theorem claim_C3_magic_sum_invariant :
    varCat LpVar.magicSquareSum = LpCat.Integer
    ∧ varBounds LpVar.magicSquareSum = (none, none)
    ∧ (∀ ct ∈ magicRowConstraints ++ magicColConstraints ++ magicDiagConstraints,
        (LpVar.magicSquareSum, -1) ∈ ct.terms)
    ∧ ∀ a : LpVar → Int, isFeasible a →
        (∀ s ∈ magicLineSums a, s = a LpVar.magicSquareSum)
        ∧ ∀ s ∈ magicLineSums a, ∀ t ∈ magicLineSums a, s = t := by
  refine ⟨rfl, rfl, by decide, ?_⟩
  rintro a ⟨hbin, hsat⟩
  have e0 : lineDigitSum a (magicRowCells 0) = a LpVar.magicSquareSum := by
    have h := hsat _ (mem_all_of_magicRow
      (by decide : magicRowConstraint 0 ∈ magicRowConstraints))
    simp only [satisfies, Rel.holds, magicRowConstraint, evalTerms, RANGE3, VALS,
      List.flatMap_cons, List.flatMap_nil, List.map_cons, List.map_nil,
      List.map_append, List.sum_cons, List.sum_nil, List.sum_append,
      List.cons_append, List.nil_append, List.append_nil] at h
    simp only [lineDigitSum, magicRowCells, RANGE3, VALS, List.map_cons, List.map_nil,
      List.sum_cons, List.sum_nil]
    omega
  have e1 : lineDigitSum a (magicRowCells 1) = a LpVar.magicSquareSum := by
    have h := hsat _ (mem_all_of_magicRow
      (by decide : magicRowConstraint 1 ∈ magicRowConstraints))
    simp only [satisfies, Rel.holds, magicRowConstraint, evalTerms, RANGE3, VALS,
      List.flatMap_cons, List.flatMap_nil, List.map_cons, List.map_nil,
      List.map_append, List.sum_cons, List.sum_nil, List.sum_append,
      List.cons_append, List.nil_append, List.append_nil] at h
    simp only [lineDigitSum, magicRowCells, RANGE3, VALS, List.map_cons, List.map_nil,
      List.sum_cons, List.sum_nil]
    omega
  have e2 : lineDigitSum a (magicRowCells 2) = a LpVar.magicSquareSum := by
    have h := hsat _ (mem_all_of_magicRow
      (by decide : magicRowConstraint 2 ∈ magicRowConstraints))
    simp only [satisfies, Rel.holds, magicRowConstraint, evalTerms, RANGE3, VALS,
      List.flatMap_cons, List.flatMap_nil, List.map_cons, List.map_nil,
      List.map_append, List.sum_cons, List.sum_nil, List.sum_append,
      List.cons_append, List.nil_append, List.append_nil] at h
    simp only [lineDigitSum, magicRowCells, RANGE3, VALS, List.map_cons, List.map_nil,
      List.sum_cons, List.sum_nil]
    omega
  have e3 : lineDigitSum a (magicColCells 0) = a LpVar.magicSquareSum := by
    have h := hsat _ (mem_all_of_magicCol
      (by decide : magicColConstraint 0 ∈ magicColConstraints))
    simp only [satisfies, Rel.holds, magicColConstraint, evalTerms, RANGE3, VALS,
      List.flatMap_cons, List.flatMap_nil, List.map_cons, List.map_nil,
      List.map_append, List.sum_cons, List.sum_nil, List.sum_append,
      List.cons_append, List.nil_append, List.append_nil] at h
    simp only [lineDigitSum, magicColCells, RANGE3, VALS, List.map_cons, List.map_nil,
      List.sum_cons, List.sum_nil]
    omega
  have e4 : lineDigitSum a (magicColCells 1) = a LpVar.magicSquareSum := by
    have h := hsat _ (mem_all_of_magicCol
      (by decide : magicColConstraint 1 ∈ magicColConstraints))
    simp only [satisfies, Rel.holds, magicColConstraint, evalTerms, RANGE3, VALS,
      List.flatMap_cons, List.flatMap_nil, List.map_cons, List.map_nil,
      List.map_append, List.sum_cons, List.sum_nil, List.sum_append,
      List.cons_append, List.nil_append, List.append_nil] at h
    simp only [lineDigitSum, magicColCells, RANGE3, VALS, List.map_cons, List.map_nil,
      List.sum_cons, List.sum_nil]
    omega
  have e5 : lineDigitSum a (magicColCells 2) = a LpVar.magicSquareSum := by
    have h := hsat _ (mem_all_of_magicCol
      (by decide : magicColConstraint 2 ∈ magicColConstraints))
    simp only [satisfies, Rel.holds, magicColConstraint, evalTerms, RANGE3, VALS,
      List.flatMap_cons, List.flatMap_nil, List.map_cons, List.map_nil,
      List.map_append, List.sum_cons, List.sum_nil, List.sum_append,
      List.cons_append, List.nil_append, List.append_nil] at h
    simp only [lineDigitSum, magicColCells, RANGE3, VALS, List.map_cons, List.map_nil,
      List.sum_cons, List.sum_nil]
    omega
  have e6 : lineDigitSum a magicDiag1Cells = a LpVar.magicSquareSum := by
    have h := hsat _ (mem_all_of_magicDiag
      (by decide : magicDiag1Constraint ∈ magicDiagConstraints))
    simp only [satisfies, Rel.holds, magicDiag1Constraint, evalTerms, RANGE3, VALS,
      List.flatMap_cons, List.flatMap_nil, List.map_cons, List.map_nil,
      List.map_append, List.sum_cons, List.sum_nil, List.sum_append,
      List.cons_append, List.nil_append, List.append_nil] at h
    simp only [lineDigitSum, magicDiag1Cells, RANGE3, VALS, List.map_cons, List.map_nil,
      List.sum_cons, List.sum_nil]
    omega
  have e7 : lineDigitSum a magicDiag2Cells = a LpVar.magicSquareSum := by
    have h := hsat _ (mem_all_of_magicDiag
      (by decide : magicDiag2Constraint ∈ magicDiagConstraints))
    simp only [satisfies, Rel.holds, magicDiag2Constraint, evalTerms, RANGE3, VALS,
      List.flatMap_cons, List.flatMap_nil, List.map_cons, List.map_nil,
      List.map_append, List.sum_cons, List.sum_nil, List.sum_append,
      List.cons_append, List.nil_append, List.append_nil] at h
    simp only [lineDigitSum, magicDiag2Cells, RANGE3, VALS, List.map_cons, List.map_nil,
      List.sum_cons, List.sum_nil]
    omega
  have hall : ∀ s ∈ magicLineSums a, s = a LpVar.magicSquareSum := by
    intro s hs
    simp only [magicLineSums, List.mem_cons, List.not_mem_nil, or_false] at hs
    rcases hs with rfl | rfl | rfl | rfl | rfl | rfl | rfl | rfl
    · exact e0
    · exact e1
    · exact e2
    · exact e3
    · exact e4
    · exact e5
    · exact e6
    · exact e7
  refine ⟨hall, ?_⟩
  intro s hs t ht
  rw [hall s hs, hall t ht]

/-- C3 witness: under the recorded solution the first diagonal's digit sum
equals the recorded magic sum. -/
theorem claim_C3_witness :
    lineDigitSum solutionAssignment magicDiag1Cells
      = solutionAssignment LpVar.magicSquareSum :=
  (claim_C3_magic_sum_invariant.2.2.2 solutionAssignment solution_feasible).1 _
    (by simp [magicLineSums])

/-- C2: the knight's-move constraints are exactly one `<= 1` constraint over
the two cell variables for every cell, every offset of `KNIGHTS_MOVES` whose
target is in bounds and not in the source's 3x3 box (the ceiling test of
`isUsefulKnightsMove` coincides with sharing a box of `BOXES`), and every
value; offsets failing `isUsefulKnightsMove` produce no constraint; and for
binary assignments such a constraint says the two variables are not both 1. -/
theorem claim_C2_knights_move_constraints :
    (∀ ct : Constraint, ct ∈ knightsMoveConstraints ↔
      ∃ r ∈ ROWS, ∃ c ∈ COLS, ∃ off ∈ KNIGHTS_MOVES, ∃ v ∈ VALS,
        isUsefulKnightsMove r c off.1 off.2 = true ∧ ct = knightConstraint r c off v)
    ∧ (∀ r c r_off c_off : Int,
        isUsefulKnightsMove r c r_off c_off = true ↔
          1 ≤ r + r_off ∧ r + r_off ≤ 9 ∧ 1 ≤ c + c_off ∧ c + c_off ≤ 9
            ∧ ¬(ceilDiv3 r = ceilDiv3 (r + r_off) ∧ ceilDiv3 c = ceilDiv3 (c + c_off)))
    ∧ (∀ r c r2 c2 : Int, 1 ≤ r → r ≤ 9 → 1 ≤ c → c ≤ 9 → 1 ≤ r2 → r2 ≤ 9 →
        1 ≤ c2 → c2 ≤ 9 →
        ((ceilDiv3 r = ceilDiv3 r2 ∧ ceilDiv3 c = ceilDiv3 c2) ↔
          ∃ b ∈ BOXES, (r, c) ∈ b ∧ (r2, c2) ∈ b))
    ∧ (∀ (r c : Int) (off : Int × Int) (v : Int),
        isUsefulKnightsMove r c off.1 off.2 = false →
          knightConstraint r c off v ∉ knightsMoveConstraints)
    ∧ (∀ ct ∈ knightsMoveConstraints, ct ∈ allConstraints)
    ∧ (∀ a : LpVar → Int, isBinaryAssignment a →
        ∀ (r c : Int) (off : Int × Int) (v : Int),
          satisfies a (knightConstraint r c off v) ↔
            ¬(a (LpVar.choice r c v) = 1
                ∧ a (LpVar.choice (r + off.1) (c + off.2) v) = 1)) := by
  refine ⟨mem_knightsMoveConstraints_iff, ?_, ?_, ?_,
    fun ct h => mem_all_of_knight h, ?_⟩
  · intro r c r_off c_off
    simp only [isUsefulKnightsMove, Bool.and_eq_true, Bool.or_eq_true,
      decide_eq_true_eq, ne_eq]
    tauto
  · intro r c r2 c2 hr1 hr9 hc1 hc9 h2r1 h2r9 h2c1 h2c9
    exact box_char r c r2 c2 hr1 hr9 hc1 hc9 h2r1 h2r9 h2c1 h2c9
  · intro r c off v h hmem
    obtain ⟨r2, _, c2, _, off2, _, v2, _, huse, heq⟩ :=
      (mem_knightsMoveConstraints_iff _).mp hmem
    obtain ⟨e1, e2, e3, e4, e5⟩ := knightConstraint_inj heq
    rw [← e1, ← e2, ← e3, ← e4] at huse
    rw [huse] at h
    exact Bool.true_eq_false.mp h
  · intro a hbin r c off v
    have h1 := hbin r c v
    have h2 := hbin (r + off.1) (c + off.2) v
    simp only [satisfies, knightConstraint, Rel.holds, evalTerms, List.map_cons,
      List.map_nil, List.sum_cons, List.sum_nil]
    omega

/-- C2 witness: the knight's move from (1,3) by offset (1,2) to (2,5) emits
its constraint for value 5. -/
theorem claim_C2_witness : knightConstraint 1 3 (1, 2) 5 ∈ knightsMoveConstraints :=
  (claim_C2_knights_move_constraints.1 _).mpr
    ⟨1, by decide, 3, by decide, (1, 2), by decide, 5, by decide, by decide, rfl⟩

/-- C9 counterexample: `isUsefulKnightsMove` is not symmetric as an
unrestricted biconditional: from grid cell (1,1) with listed offset
(-1,-2) the move is not useful (its target leaves the grid), yet the
reversed call, whose source (0,-1) is not a grid cell, is useful — the
helper never bound-checks its source. -/
theorem claim_C9_counterexample :
    isUsefulKnightsMove 1 1 (-1) (-2) = false
    ∧ isUsefulKnightsMove 0 (-1) 1 2 = true
    ∧ (1 : Int) ∈ ROWS ∧ (1 : Int) ∈ COLS
    ∧ ((-1 : Int), (-2 : Int)) ∈ KNIGHTS_MOVES := by decide

set_option maxRecDepth 4000 in
/-- C9 (amended): knight's-move generation is symmetric in duplicate on the
emitted domain — for grid cells, a useful move's reverse is useful, and the
biconditional holds whenever the target also lies in the grid; the offset
list is closed under negation; each useful move contributes the constraints
of both directions (logically equivalent constraints) for each value; and
the total count is 9 values times twice the number of unordered useful
pairs: 2736 = 9 * (2 * 152). -/
theorem claim_C9_knight_duplication :
    (∀ r ∈ ROWS, ∀ c ∈ COLS, ∀ off ∈ KNIGHTS_MOVES,
        isUsefulKnightsMove r c off.1 off.2 = true →
          isUsefulKnightsMove (r + off.1) (c + off.2) (-off.1) (-off.2) = true)
    ∧ (∀ r ∈ ROWS, ∀ c ∈ COLS, ∀ off ∈ KNIGHTS_MOVES,
        1 ≤ r + off.1 → r + off.1 ≤ 9 → 1 ≤ c + off.2 → c + off.2 ≤ 9 →
          isUsefulKnightsMove r c off.1 off.2
            = isUsefulKnightsMove (r + off.1) (c + off.2) (-off.1) (-off.2))
    ∧ (∀ off ∈ KNIGHTS_MOVES, (-off.1, -off.2) ∈ KNIGHTS_MOVES)
    ∧ (∀ r ∈ ROWS, ∀ c ∈ COLS, ∀ off ∈ KNIGHTS_MOVES, ∀ v ∈ VALS,
        isUsefulKnightsMove r c off.1 off.2 = true →
          knightConstraint r c off v ∈ knightsMoveConstraints
          ∧ knightConstraint (r + off.1) (c + off.2) (-off.1, -off.2) v
              ∈ knightsMoveConstraints
          ∧ ∀ a : LpVar → Int,
              satisfies a (knightConstraint r c off v) ↔
                satisfies a
                  (knightConstraint (r + off.1) (c + off.2) (-off.1, -off.2) v))
    ∧ knightUnorderedPairs.Nodup
    ∧ knights_move_constraint_count = 2736
    ∧ knightUnorderedPairs.length = 152
    ∧ knights_move_constraint_count = 9 * (2 * knightUnorderedPairs.length) := by
  have hsymAll : ∀ r ∈ ROWS, ∀ c ∈ COLS, ∀ off ∈ KNIGHTS_MOVES,
      isUsefulKnightsMove r c off.1 off.2 = true →
        isUsefulKnightsMove (r + off.1) (c + off.2) (-off.1) (-off.2) = true := by decide
  have hcount : knights_move_constraint_count = 2736 := by
    simp only [knights_move_constraint_count, knightsMoveConstraints,
      List.length_flatMap, Function.comp_def]
    decide
  have hpairs : knightUnorderedPairs.length = 152 := by
    simp only [knightUnorderedPairs, List.length_flatMap, Function.comp_def,
      List.length_map]
    decide
  refine ⟨hsymAll, by decide, by decide, ?_, by decide, hcount, hpairs,
    by rw [hcount, hpairs]⟩
  intro r hr c hc off hoff v hv huse
  have htgt := isUseful_bounds huse
  have huse2 : isUsefulKnightsMove (r + off.1) (c + off.2) (-off.1) (-off.2) = true :=
    hsymAll r hr c hc off hoff huse
  refine ⟨(mem_knightsMoveConstraints_iff _).mpr ⟨r, hr, c, hc, off, hoff, v, hv, huse, rfl⟩,
    (mem_knightsMoveConstraints_iff _).mpr ⟨r + off.1, ?_, c + off.2, ?_,
      (-off.1, -off.2), ?_, v, hv, huse2, rfl⟩, ?_⟩
  · exact (mem_ROWS_iff _).mpr ⟨htgt.1, htgt.2.1⟩
  · exact (mem_ROWS_iff _).mpr ⟨htgt.2.2.1, htgt.2.2.2⟩
  · have hneg : ∀ o ∈ KNIGHTS_MOVES, (-o.1, -o.2) ∈ KNIGHTS_MOVES := by decide
    exact hneg off hoff
  · intro a
    obtain ⟨o1, o2⟩ := off
    have e1 : r + o1 + -o1 = r := by ring
    have e2 : c + o2 + -o2 = c := by ring
    simp only [satisfies, knightConstraint, Rel.holds, evalTerms, List.map_cons,
      List.map_nil, List.sum_cons, List.sum_nil, e1, e2]
    omega

/-- C9 witness: the useful move from (5,5) by offset (2,1) puts both the
forward and the reverse constraint for value 1 in the emitted list. -/
theorem claim_C9_witness :
    knightConstraint 5 5 (2, 1) 1 ∈ knightsMoveConstraints
    ∧ knightConstraint 7 6 (-2, -1) 1 ∈ knightsMoveConstraints := by
  have h := claim_C9_knight_duplication.2.2.2.1 5 (by decide) 5 (by decide) (2, 1)
    (by decide) 1 (by decide) (by decide)
  exact ⟨h.1, h.2.1⟩

set_option maxRecDepth 4000 in
theorem knight_terms_in_range :
    ∀ ct ∈ knightsMoveConstraints, ∀ t ∈ ct.terms, varInRange t.1 = true := by
  unfold knightsMoveConstraints
  rw [forall_mem_flatMap]
  intro r hr
  rw [forall_mem_flatMap]
  revert hr r
  decide

set_option maxRecDepth 4000 in
theorem rest_terms_in_range :
    ∀ ct ∈ cellConstraints ++ rowColBoxConstraints ++ diagonalConstraints
      ++ magicRowConstraints ++ magicColConstraints ++ magicDiagConstraints
      ++ givenConstraints,
    ∀ t ∈ ct.terms, varInRange t.1 = true := by decide

/-- C10: every variable referenced by any emitted constraint has all three
dictionary keys in [1, 9], so no `choices` lookup during constraint
building can fail. -/
theorem claim_C10_accesses_in_range :
    ∀ ct ∈ allConstraints, ∀ t ∈ ct.terms, varInRange t.1 = true := by
  intro ct hct
  have h : ct ∈ knightsMoveConstraints ∨
      ct ∈ cellConstraints ++ rowColBoxConstraints ++ diagonalConstraints
        ++ magicRowConstraints ++ magicColConstraints ++ magicDiagConstraints
        ++ givenConstraints := by
    simp only [allConstraints, List.mem_append] at hct
    simp only [List.mem_append]
    tauto
  rcases h with h | h
  · exact knight_terms_in_range ct h
  · exact rest_terms_in_range ct h

/-- C10 witness: the variable accessed by the first given-cell constraint
has its keys in range. -/
theorem claim_C10_witness : varInRange (LpVar.choice 4 1 3) = true :=
  claim_C10_accesses_in_range (givenConstraint 4 1 3) (mem_all_of_given (by decide))
    (LpVar.choice 4 1 3, 1) (by decide)

end MagicSudoku
